import Mathlib

/-!
Shallow embedding of the in-memory publish/subscribe broker
(`server/src/broker.ts` together with the session adapter in
`server/src/index.ts`).

The broker is single-threaded and every operation is a synchronous
function over the broker state; the embedding therefore passes the
state explicitly and collects the side effects of an operation
(envelope emissions on sockets, forced disconnects, and — for
`deleteTopic` — the point at which the topic is removed from the
registry) as an ordered trace of `Action`s.  JavaScript `Map`s are
modelled as insertion-ordered association lists with the `Map`
operations (`get`, `set`, `delete`); `new Date().toISOString()` is
modelled by a timestamp argument threaded into each operation.  The
payload type is an opaque parameter `π`, exactly as the broker treats
payloads.
-/

namespace PubSub

/-- JS `Map.get` over an insertion-ordered association list. -/
def mapGet {β : Type} : List (String × β) → String → Option β
  | [], _ => none
  | p :: ps, k => if p.1 = k then some p.2 else mapGet ps k

/-- JS `Map.set`: replace the entry in place when the key is present
(a JS `Map` keeps the original insertion position), append otherwise. -/
def mapSet {β : Type} : List (String × β) → String → β → List (String × β)
  | [], k, v => [(k, v)]
  | p :: ps, k, v => if p.1 = k then (k, v) :: ps else p :: mapSet ps k v

/-- JS `Map.delete`: remove the entry with the given key. -/
def mapDelete {β : Type} : List (String × β) → String → List (String × β)
  | [], _ => []
  | p :: ps, k => if p.1 = k then ps else p :: mapDelete ps k

/-- `PublishPayload` from `types.ts`: `{id, payload}`, the payload opaque. -/
structure PublishPayload (π : Type) where
  id : String
  payload : π
  deriving DecidableEq

/-- `QueuedEvent` from `broker.ts`: `{topic, message}`. -/
structure QueuedEvent (π : Type) where
  topic : String
  message : PublishPayload π
  deriving DecidableEq

/-- `BoundedQueue<T>` from `broker.ts`: a capacity plus the backing array. -/
structure BoundedQueue (α : Type) where
  capacity : Nat
  items : List α
  deriving DecidableEq

/-- `BoundedQueue.pushDropOldest`: if `items.length >= capacity`, shift the
head off (reporting one drop), then push the new item. -/
def BoundedQueue.pushDropOldest {α : Type} (q : BoundedQueue α) (item : α) :
    BoundedQueue α × Nat :=
  if q.capacity ≤ q.items.length then
    ({ q with items := q.items.tail ++ [item] }, 1)
  else
    ({ q with items := q.items ++ [item] }, 0)

/-- `BoundedQueue.drain(max)`: `splice(0, min(max, length))`, returning the
removed prefix; `max <= 0` removes nothing. -/
def BoundedQueue.drain {α : Type} (q : BoundedQueue α) (mx : Nat) :
    List α × BoundedQueue α :=
  if mx = 0 then ([], q)
  else (q.items.take (min mx q.items.length),
        { q with items := q.items.drop (min mx q.items.length) })

/-- `RingBuffer<T>` from `broker.ts`: a fixed array (modelled as a map from
index to an optional slot, every slot initially `undefined`), a start
offset and an element count. -/
structure RingBuffer (α : Type) where
  capacity : Nat
  buffer : Nat → Option α
  start : Nat
  count : Nat

/-- A freshly constructed ring: `new Array(capacity)`, `start = 0`,
`count = 0`. -/
def RingBuffer.empty {α : Type} (cap : Nat) : RingBuffer α :=
  ⟨cap, fun _ => none, 0, 0⟩

/-- `RingBuffer.append`: no-op at capacity 0; otherwise write at
`(start + count) % capacity` and either grow `count` or advance `start`. -/
def RingBuffer.append {α : Type} (r : RingBuffer α) (v : α) : RingBuffer α :=
  if r.capacity = 0 then r
  else
    let e := (r.start + r.count) % r.capacity
    let buf := fun i => if i = e then some v else r.buffer i
    if r.count < r.capacity then { r with buffer := buf, count := r.count + 1 }
    else { r with buffer := buf, start := (r.start + 1) % r.capacity }

/-- `RingBuffer.last(n)`: read `take = min(n, count)` slots at offsets
`count - take, …, count - 1` from `start`, skipping `undefined` slots. -/
def RingBuffer.last {α : Type} (r : RingBuffer α) (n : Nat) : List α :=
  (List.range' (r.count - min n r.count) (min n r.count)).filterMap
    (fun i => r.buffer ((r.start + i) % r.capacity))

/-- The closed set of wire error codes (`types.ts`). -/
inductive ErrorCode where
  | BAD_REQUEST
  | TOPIC_NOT_FOUND
  | SLOW_CONSUMER
  | UNAUTHORIZED
  | INTERNAL
  deriving DecidableEq

/-- Outbound envelopes (`types.ts`).  Every variant carries the optional
`request_id` and `ts` fields of `ServerMessageBase`; a constructor site
that omits `request_id` in the source passes `none` here. -/
inductive ServerMessage (π : Type) where
  | ack (topic : Option String) (requestId : Option String) (ts : Option String)
  | event (topic : String) (message : PublishPayload π)
      (requestId : Option String) (ts : Option String)
  | error (code : ErrorCode) (message : String)
      (requestId : Option String) (ts : Option String)
  | pong (requestId : Option String) (ts : Option String)
  | info (topic : Option String) (msg : String)
      (requestId : Option String) (ts : Option String)
  deriving DecidableEq

/-- One observable side effect of a broker operation, in program order:
a `socket.emit("message", …)`, a `socket.disconnect(true)`, or the
`topics.delete(name)` step of `deleteTopic` (recorded so that the order
of registry removal relative to the emitted notices is part of the
trace). -/
inductive Action (π : Type) where
  | emit (socketId : String) (msg : ServerMessage π)
  | disconnect (socketId : String)
  | removeTopic (name : String)
  deriving DecidableEq

/-- Subscriber record: the socket (kept as its id, which is also its key
in the topic's table), the informational `client_id`, and the bounded
outbound queue. -/
structure Subscriber (π : Type) where
  socketId : String
  clientId : String
  queue : BoundedQueue (QueuedEvent π)
  deriving DecidableEq

/-- Per-topic counters. -/
structure Stats where
  messages : Nat
  subscribers : Nat
  delivered : Nat
  dropped : Nat
  deriving DecidableEq

/-- Topic record: name, subscriber table keyed by socket id, replay ring,
counters. -/
structure Topic (π : Type) where
  name : String
  subscribers : List (String × Subscriber π)
  ring : RingBuffer (PublishPayload π)
  stats : Stats

/-- `BrokerOptions` (the heartbeat interval plays no role in the claims). -/
structure BrokerOptions where
  ringBufferSize : Nat
  subscriberQueueSize : Nat
  deriving DecidableEq

/-- `InMemoryBroker` state: the registry plus the construction options. -/
structure Broker (π : Type) where
  topics : List (String × Topic π)
  opts : BrokerOptions

/-- `InMemoryBroker.flush`: drain up to 100 queued events and emit an
`event` envelope for each, incrementing `delivered` once per emit.
The source stamps each event with a fresh `toISOString()`; the model
stamps them with the operation's timestamp. -/
def flush {π : Type} (sub : Subscriber π) (st : Stats) (ts : String) :
    Subscriber π × Stats × List (Action π) :=
  let r := sub.queue.drain 100
  ({ sub with queue := r.2 },
   { st with delivered := st.delivered + r.1.length },
   r.1.map (fun ev => Action.emit sub.socketId
     (ServerMessage.event ev.topic ev.message none (some ts))))

/-- One iteration of the replay loop in `subscribe`: push the replayed
payload, account the reported drop into the topic's `dropped`, flush. -/
def replayStep {π : Type} (topicName ts : String)
    (acc : Subscriber π × Stats × List (Action π)) (m : PublishPayload π) :
    Subscriber π × Stats × List (Action π) :=
  let pr := acc.1.queue.pushDropOldest ⟨topicName, m⟩
  let f := flush { acc.1 with queue := pr.1 }
    { acc.2.1 with dropped := acc.2.1.dropped + pr.2 } ts
  (f.1, f.2.1, acc.2.2 ++ f.2.2)

/-- One iteration of the fan-out loop in `publish`: push onto the
subscriber's queue, account the reported drop, flush; the rebuilt
subscriber is written back to the table. -/
def publishStep {π : Type} (topicName : String) (msg : PublishPayload π)
    (ts : String)
    (acc : List (String × Subscriber π) × Stats × List (Action π))
    (p : String × Subscriber π) :
    List (String × Subscriber π) × Stats × List (Action π) :=
  let pr := p.2.queue.pushDropOldest ⟨topicName, msg⟩
  let f := flush { p.2 with queue := pr.1 }
    { acc.2.1 with dropped := acc.2.1.dropped + pr.2 } ts
  (acc.1 ++ [(p.1, f.1)], f.2.1, acc.2.2 ++ f.2.2)

/-- `InMemoryBroker.createTopic`: conflict when the name exists, else
install a fresh topic record with zeroed counters. -/
def Broker.createTopic {π : Type} (b : Broker π) (name : String) :
    Broker π × Bool :=
  if (mapGet b.topics name).isSome then (b, false)
  else
    (⟨mapSet b.topics name
        ⟨name, [], RingBuffer.empty b.opts.ringBufferSize, ⟨0, 0, 0, 0⟩⟩,
      b.opts⟩, true)

/-- `InMemoryBroker.deleteTopic`: not-found when absent; otherwise, for
each subscriber in table order, emit the `topic_deleted` info envelope
and disconnect the socket, and then delete the topic from the registry
(the deletion is the last step of the source method). -/
def Broker.deleteTopic {π : Type} (b : Broker π) (name : String) (ts : String) :
    Broker π × List (Action π) × Bool :=
  match mapGet b.topics name with
  | none => (b, [], false)
  | some topic =>
      let infoMsg : ServerMessage π :=
        ServerMessage.info (some name) "topic_deleted" none (some ts)
      let acts := topic.subscribers.foldl
        (fun a q => a ++ [Action.emit q.2.socketId infoMsg,
                          Action.disconnect q.2.socketId]) []
      (⟨mapDelete b.topics name, b.opts⟩,
       acts ++ [Action.removeTopic name], true)

/-- The list of payloads the replay branch of `subscribe` reads from the
ring: `last_n` payloads when `last_n` is present and positive (the
source treats any falsy `last_n` as "no replay"), nothing otherwise. -/
def subToSend {π : Type} (topic : Topic π) (lastN : Option Nat) :
    List (PublishPayload π) :=
  match lastN with
  | some n => if 0 < n then topic.ring.last n else []
  | none => []

/-- `InMemoryBroker.subscribe`: `TOPIC_NOT_FOUND` when the topic is
absent; otherwise install a fresh subscriber record (replacing any
existing entry under the same socket id), update the `subscribers`
counter, emit `ack`, and if `last_n` is a positive number replay the
ring's last `last_n` payloads through the enqueue-and-flush path. -/
def Broker.subscribe {π : Type} (b : Broker π) (sid cid topicName : String)
    (lastN : Option Nat) (rid : Option String) (ts : String) :
    Broker π × List (Action π) :=
  match mapGet b.topics topicName with
  | none =>
      (b, [Action.emit sid (ServerMessage.error ErrorCode.TOPIC_NOT_FOUND
            ("topic " ++ topicName ++ " not found") rid (some ts))])
  | some topic =>
      let sub0 : Subscriber π := ⟨sid, cid, ⟨b.opts.subscriberQueueSize, []⟩⟩
      let table0 := mapSet topic.subscribers sid sub0
      let r := (subToSend topic lastN).foldl (replayStep topicName ts)
        (sub0, { topic.stats with subscribers := table0.length }, [])
      let topic' : Topic π := { topic with
        subscribers := mapSet topic.subscribers sid r.1, stats := r.2.1 }
      (⟨mapSet b.topics topicName topic', b.opts⟩,
       Action.emit sid (ServerMessage.ack (some topicName) rid (some ts))
         :: r.2.2)

/-- `InMemoryBroker.unsubscribe`: `TOPIC_NOT_FOUND` when the topic is
absent; otherwise delete the socket's entry, refresh the counter, `ack`
(the `client_id` argument is ignored, as in the source). -/
def Broker.unsubscribe {π : Type} (b : Broker π) (sid topicName : String)
    (_clientId : String) (rid : Option String) (ts : String) :
    Broker π × List (Action π) :=
  match mapGet b.topics topicName with
  | none =>
      (b, [Action.emit sid (ServerMessage.error ErrorCode.TOPIC_NOT_FOUND
            ("topic " ++ topicName ++ " not found") rid (some ts))])
  | some topic =>
      let subs' := mapDelete topic.subscribers sid
      let topic' : Topic π := { topic with
        subscribers := subs',
        stats := { topic.stats with subscribers := subs'.length } }
      (⟨mapSet b.topics topicName topic', b.opts⟩,
       [Action.emit sid (ServerMessage.ack (some topicName) rid (some ts))])

/-- `InMemoryBroker.publish`: not-found indicator when the topic is
absent (no state change, nothing emitted); otherwise increment
`messages`, append to the ring, and run the fan-out loop over the
subscriber table in insertion order.  The `requestId` parameter is
accepted and unused, as in the source. -/
def Broker.publish {π : Type} (b : Broker π) (topicName : String)
    (message : PublishPayload π) (_requestId : Option String) (ts : String) :
    Broker π × List (Action π) × Bool :=
  match mapGet b.topics topicName with
  | none => (b, [], false)
  | some topic =>
      let r := topic.subscribers.foldl (publishStep topicName message ts)
        ([], { topic.stats with messages := topic.stats.messages + 1 }, [])
      let topic' : Topic π := { topic with
        subscribers := r.1, ring := topic.ring.append message, stats := r.2.1 }
      (⟨mapSet b.topics topicName topic', b.opts⟩, r.2.2, true)

/-- `InMemoryBroker.handleSocketDisconnect`: drop the socket from every
topic's table, refreshing the counter of each table it was actually
removed from. -/
def Broker.handleSocketDisconnect {π : Type} (b : Broker π) (sid : String) :
    Broker π :=
  ⟨b.topics.map (fun p =>
      if (mapGet p.2.subscribers sid).isSome then
        (p.1, { p.2 with
          subscribers := mapDelete p.2.subscribers sid,
          stats := { p.2.stats with
            subscribers := (mapDelete p.2.subscribers sid).length } })
      else p),
   b.opts⟩

/-- The `publish` case of the session adapter's message handler
(`index.ts`): call `broker.publish`; on failure emit `TOPIC_NOT_FOUND`
to the originating socket, on success emit the `ack`, both echoing the
inbound `request_id`. -/
def handlePublish {π : Type} (b : Broker π) (sid topicName : String)
    (message : PublishPayload π) (rid : Option String) (now : String) :
    Broker π × List (Action π) :=
  let r := b.publish topicName message rid now
  if r.2.2 then
    (r.1, r.2.1 ++ [Action.emit sid
      (ServerMessage.ack (some topicName) rid (some now))])
  else
    (r.1, r.2.1 ++ [Action.emit sid
      (ServerMessage.error ErrorCode.TOPIC_NOT_FOUND
        ("topic " ++ topicName ++ " not found") rid (some now))])

/-- The `ping` case of the session adapter's message handler. -/
def handlePing {π : Type} (sid : String) (rid : Option String) (now : String) :
    List (Action π) :=
  [Action.emit sid (ServerMessage.pong rid (some now))]

/-! ### Association-list (JS `Map`) lemmas -/

theorem mapGet_mapSet_self {β : Type} (m : List (String × β)) (k : String)
    (v : β) : mapGet (mapSet m k v) k = some v := by
  induction m with
  | nil => simp [mapSet, mapGet]
  | cons p ps ih =>
      by_cases h : p.1 = k
      · simp [mapSet, mapGet, h]
      · simp [mapSet, mapGet, h, ih]

theorem mem_mapSet {β : Type} {m : List (String × β)} {k : String} {v : β}
    {p : String × β} (h : p ∈ mapSet m k v) : p = (k, v) ∨ p ∈ m := by
  induction m with
  | nil => simp only [mapSet, List.mem_singleton] at h; exact Or.inl h
  | cons q ps ih =>
      by_cases hq : q.1 = k
      · simp only [mapSet, if_pos hq, List.mem_cons] at h
        rcases h with h | h
        · exact Or.inl h
        · exact Or.inr (List.mem_cons_of_mem _ h)
      · simp only [mapSet, if_neg hq, List.mem_cons] at h
        rcases h with h | h
        · exact Or.inr (h ▸ List.mem_cons_self _ _)
        · rcases ih h with h' | h'
          · exact Or.inl h'
          · exact Or.inr (List.mem_cons_of_mem _ h')

theorem mem_mapDelete {β : Type} {m : List (String × β)} {k : String}
    {p : String × β} (h : p ∈ mapDelete m k) : p ∈ m := by
  induction m with
  | nil => simp only [mapDelete] at h; exact absurd h (List.not_mem_nil p)
  | cons q ps ih =>
      by_cases hq : q.1 = k
      · simp only [mapDelete, if_pos hq] at h
        exact List.mem_cons_of_mem _ h
      · simp only [mapDelete, if_neg hq, List.mem_cons] at h
        rcases h with h | h
        · exact h ▸ List.mem_cons_self _ _
        · exact List.mem_cons_of_mem _ (ih h)

theorem mapGet_mem {β : Type} {m : List (String × β)} {k : String} {v : β}
    (h : mapGet m k = some v) : (k, v) ∈ m := by
  induction m with
  | nil => simp [mapGet] at h
  | cons q ps ih =>
      by_cases hq : q.1 = k
      · simp only [mapGet, if_pos hq, Option.some.injEq] at h
        obtain ⟨a, b⟩ := q
        simp only at hq
        subst hq; subst h
        exact List.mem_cons_self _ _
      · simp only [mapGet, if_neg hq] at h
        exact List.mem_cons_of_mem _ (ih h)

theorem mapGet_eq_none_forall {β : Type} {m : List (String × β)} {k : String}
    (h : mapGet m k = none) : ∀ p ∈ m, p.1 ≠ k := by
  induction m with
  | nil => simp
  | cons q ps ih =>
      by_cases hq : q.1 = k
      · simp [mapGet, hq] at h
      · simp only [mapGet, if_neg hq] at h
        intro p hp
        rcases List.mem_cons.mp hp with rfl | hp
        · exact hq
        · exact ih h p hp

theorem mapGet_eq_none_of_forall {β : Type} {m : List (String × β)}
    {k : String} (h : ∀ p ∈ m, p.1 ≠ k) : mapGet m k = none := by
  induction m with
  | nil => rfl
  | cons q ps ih =>
      have hq : q.1 ≠ k := h q (List.mem_cons_self _ _)
      simp only [mapGet, if_neg hq]
      exact ih (fun p hp => h p (List.mem_cons_of_mem _ hp))

theorem mapSet_of_absent {β : Type} {m : List (String × β)} {k : String}
    (v : β) (h : ∀ p ∈ m, p.1 ≠ k) : mapSet m k v = m ++ [(k, v)] := by
  induction m with
  | nil => rfl
  | cons q ps ih =>
      have hq : q.1 ≠ k := h q (List.mem_cons_self _ _)
      simp only [mapSet, if_neg hq, List.cons_append, List.cons.injEq, true_and]
      exact ih (fun p hp => h p (List.mem_cons_of_mem _ hp))

theorem mapDelete_append_absent {β : Type} {m : List (String × β)}
    {k : String} (v : β) (h : ∀ p ∈ m, p.1 ≠ k) :
    mapDelete (m ++ [(k, v)]) k = m := by
  induction m with
  | nil => simp [mapDelete]
  | cons q ps ih =>
      have hq : q.1 ≠ k := h q (List.mem_cons_self _ _)
      simp only [List.cons_append, mapDelete, if_neg hq, List.cons.injEq,
        true_and]
      exact ih (fun p hp => h p (List.mem_cons_of_mem _ hp))

theorem mapGet_mapDelete_self {β : Type} {m : List (String × β)} {k : String}
    (hnd : (m.map Prod.fst).Nodup) : mapGet (mapDelete m k) k = none := by
  induction m with
  | nil => rfl
  | cons q ps ih =>
      simp only [List.map_cons, List.nodup_cons, List.mem_map] at hnd
      by_cases hq : q.1 = k
      · simp only [mapDelete, if_pos hq]
        refine mapGet_eq_none_of_forall (fun p hp => ?_)
        intro hk
        exact hnd.1 ⟨p, hp, by rw [hk, hq]⟩
      · simp only [mapDelete, if_neg hq, mapGet, if_neg hq]
        exact ih hnd.2

/-! ### Bounded-queue and flush lemmas -/

theorem BoundedQueue.eq_of_items_empty {α : Type} (q : BoundedQueue α)
    (h : q.items = []) : ({ q with items := ([] : List α) }) = q := by
  obtain ⟨c, it⟩ := q
  simp only at h
  rw [h]

theorem pushDropOldest_of_empty {α : Type} (q : BoundedQueue α)
    (h : q.items = []) (it : α) :
    q.pushDropOldest it =
      ({ q with items := [it] }, if q.capacity = 0 then 1 else 0) := by
  rcases Nat.eq_zero_or_pos q.capacity with h0 | h0
  · simp [BoundedQueue.pushDropOldest, h, h0]
  · simp [BoundedQueue.pushDropOldest, h, Nat.not_le.mpr h0,
      Nat.pos_iff_ne_zero.mp h0]

theorem flush_of_single {π : Type} (sub : Subscriber π) (st : Stats)
    (ts : String) (ev : QueuedEvent π) (h : sub.queue.items = [ev]) :
    flush sub st ts =
      ({ sub with queue := { sub.queue with items := ([] : List (QueuedEvent π)) } },
       { st with delivered := st.delivered + 1 },
       [Action.emit sub.socketId
          (ServerMessage.event ev.topic ev.message none (some ts))]) := by
  simp [flush, BoundedQueue.drain, h]

/-! ### Replay-loop lemmas -/

theorem replayStep_of_empty {π : Type} (t ts : String) (sub : Subscriber π)
    (st : Stats) (acts : List (Action π)) (m : PublishPayload π)
    (h : sub.queue.items = []) :
    replayStep t ts (sub, st, acts) m =
      (sub,
       ⟨st.messages, st.subscribers, st.delivered + 1,
        st.dropped + (if sub.queue.capacity = 0 then 1 else 0)⟩,
       acts ++ [Action.emit sub.socketId
         (ServerMessage.event t m none (some ts))]) := by
  obtain ⟨sid, cid, c, it⟩ := sub
  obtain ⟨ms, ss, dv, dr⟩ := st
  simp only at h
  subst h
  rcases Nat.eq_zero_or_pos c with h0 | h0
  · simp [replayStep, flush, BoundedQueue.pushDropOldest, BoundedQueue.drain,
      h0]
  · simp [replayStep, flush, BoundedQueue.pushDropOldest, BoundedQueue.drain,
      Nat.not_le.mpr h0, Nat.pos_iff_ne_zero.mp h0]

theorem replay_fold_of_empty {π : Type} (t ts : String)
    (ms : List (PublishPayload π)) :
    ∀ (sub : Subscriber π) (st : Stats) (acts : List (Action π)),
      sub.queue.items = [] →
      ms.foldl (replayStep t ts) (sub, st, acts) =
        (sub,
         ⟨st.messages, st.subscribers, st.delivered + ms.length,
          st.dropped + (if sub.queue.capacity = 0 then ms.length else 0)⟩,
         acts ++ ms.map (fun m => Action.emit sub.socketId
           (ServerMessage.event t m none (some ts)))) := by
  induction ms with
  | nil =>
      intro sub st acts h
      simp
  | cons m ms ih =>
      intro sub st acts h
      rw [List.foldl_cons, replayStep_of_empty t ts sub st acts m h,
        ih _ _ _ h]
      simp only [Prod.mk.injEq]
      refine ⟨by trivial, ?_, ?_⟩
      · simp only [Stats.mk.injEq, List.length_cons]
        refine ⟨by trivial, by trivial, by omega, by split_ifs <;> omega⟩
      · simp [List.append_assoc]

theorem subscribe_present {π : Type} (b : Broker π) (sid cid t : String)
    (lastN : Option Nat) (rid : Option String) (ts : String) (topic : Topic π)
    (h : mapGet b.topics t = some topic) :
    b.subscribe sid cid t lastN rid ts =
      (⟨mapSet b.topics t
          ⟨topic.name,
           mapSet topic.subscribers sid
             ⟨sid, cid, ⟨b.opts.subscriberQueueSize, []⟩⟩,
           topic.ring,
           ⟨topic.stats.messages,
            (mapSet topic.subscribers sid
              ⟨sid, cid, ⟨b.opts.subscriberQueueSize, []⟩⟩).length,
            topic.stats.delivered + (subToSend topic lastN).length,
            topic.stats.dropped +
              (if b.opts.subscriberQueueSize = 0
               then (subToSend topic lastN).length else 0)⟩⟩,
        b.opts⟩,
       Action.emit sid (ServerMessage.ack (some t) rid (some ts)) ::
         (subToSend topic lastN).map (fun m => Action.emit sid
           (ServerMessage.event t m none (some ts)))) := by
  simp only [Broker.subscribe, h]
  rw [replay_fold_of_empty t ts (subToSend topic lastN)
    ⟨sid, cid, ⟨b.opts.subscriberQueueSize, []⟩⟩
    { topic.stats with
      subscribers := (mapSet topic.subscribers sid
        ⟨sid, cid, ⟨b.opts.subscriberQueueSize, []⟩⟩).length } [] rfl]
  rfl

/-! ### Fan-out lemmas -/

theorem publishStep_of_empty {π : Type} (t : String) (msg : PublishPayload π)
    (ts : String) (done : List (String × Subscriber π)) (st : Stats)
    (acts : List (Action π)) (p : String × Subscriber π)
    (h : p.2.queue.items = []) :
    publishStep t msg ts (done, st, acts) p =
      (done ++ [p],
       ⟨st.messages, st.subscribers, st.delivered + 1,
        st.dropped + (if p.2.queue.capacity = 0 then 1 else 0)⟩,
       acts ++ [Action.emit p.2.socketId
         (ServerMessage.event t msg none (some ts))]) := by
  obtain ⟨k, sid, cid, c, it⟩ := p
  obtain ⟨ms, ss, dv, dr⟩ := st
  simp only at h
  subst h
  rcases Nat.eq_zero_or_pos c with h0 | h0
  · simp [publishStep, flush, BoundedQueue.pushDropOldest, BoundedQueue.drain,
      h0]
  · simp [publishStep, flush, BoundedQueue.pushDropOldest, BoundedQueue.drain,
      Nat.not_le.mpr h0, Nat.pos_iff_ne_zero.mp h0]

theorem publish_fold_of_empty {π : Type} (t : String) (msg : PublishPayload π)
    (ts : String) (L : List (String × Subscriber π)) :
    ∀ (done : List (String × Subscriber π)) (st : Stats)
      (acts : List (Action π)), (∀ q ∈ L, q.2.queue.items = []) →
      L.foldl (publishStep t msg ts) (done, st, acts) =
        (done ++ L,
         ⟨st.messages, st.subscribers, st.delivered + L.length,
          st.dropped + L.countP (fun q => q.2.queue.capacity == 0)⟩,
         acts ++ L.map (fun q => Action.emit q.2.socketId
           (ServerMessage.event t msg none (some ts)))) := by
  induction L with
  | nil =>
      intro done st acts _
      simp
  | cons p L ih =>
      intro done st acts h
      rw [List.foldl_cons,
        publishStep_of_empty t msg ts done st acts p
          (h p (List.mem_cons_self _ _)),
        ih _ _ _ (fun q hq => h q (List.mem_cons_of_mem _ hq))]
      simp only [Prod.mk.injEq]
      refine ⟨by simp, ?_, ?_⟩
      · simp only [Stats.mk.injEq, List.length_cons, List.countP_cons,
          beq_iff_eq]
        refine ⟨by trivial, by trivial, by omega, by split_ifs <;> omega⟩
      · simp [List.append_assoc]

theorem publish_fanout {π : Type} (b : Broker π) (t : String)
    (msg : PublishPayload π) (rid : Option String) (ts : String)
    (topic : Topic π) (h : mapGet b.topics t = some topic)
    (hq : ∀ q ∈ topic.subscribers, q.2.queue.items = []) :
    b.publish t msg rid ts =
      (⟨mapSet b.topics t
          ⟨topic.name, topic.subscribers, topic.ring.append msg,
           ⟨topic.stats.messages + 1, topic.stats.subscribers,
            topic.stats.delivered + topic.subscribers.length,
            topic.stats.dropped +
              topic.subscribers.countP (fun q => q.2.queue.capacity == 0)⟩⟩,
        b.opts⟩,
       topic.subscribers.map (fun q => Action.emit q.2.socketId
         (ServerMessage.event t msg none (some ts))),
       true) := by
  simp only [Broker.publish, h]
  rw [publish_fold_of_empty t msg ts topic.subscribers []
    { topic.stats with messages := topic.stats.messages + 1 } [] hq]
  rfl

/-! ### Exact forms of `unsubscribe` and `deleteTopic` -/

theorem unsubscribe_present {π : Type} (b : Broker π) (sid t cid : String)
    (rid : Option String) (ts : String) (topic : Topic π)
    (h : mapGet b.topics t = some topic) :
    b.unsubscribe sid t cid rid ts =
      (⟨mapSet b.topics t
          ⟨topic.name, mapDelete topic.subscribers sid, topic.ring,
           ⟨topic.stats.messages, (mapDelete topic.subscribers sid).length,
            topic.stats.delivered, topic.stats.dropped⟩⟩,
        b.opts⟩,
       [Action.emit sid (ServerMessage.ack (some t) rid (some ts))]) := by
  simp only [Broker.unsubscribe, h]

theorem delete_fold_acts {π : Type} (L : List (String × Subscriber π))
    (inf : ServerMessage π) :
    ∀ acc : List (Action π),
      L.foldl (fun a q => a ++ [Action.emit q.2.socketId inf,
        Action.disconnect q.2.socketId]) acc =
      acc ++ (L.map (fun q => [Action.emit q.2.socketId inf,
        Action.disconnect q.2.socketId])).flatten := by
  induction L with
  | nil => intro acc; simp
  | cons p L ih =>
      intro acc
      rw [List.foldl_cons, ih]
      simp [List.append_assoc]

theorem deleteTopic_present {π : Type} (b : Broker π) (t ts : String)
    (topic : Topic π) (h : mapGet b.topics t = some topic) :
    b.deleteTopic t ts =
      (⟨mapDelete b.topics t, b.opts⟩,
       (topic.subscribers.map (fun q =>
          [Action.emit q.2.socketId
             (ServerMessage.info (some t) "topic_deleted" none (some ts)),
           Action.disconnect q.2.socketId])).flatten ++ [Action.removeTopic t],
       true) := by
  simp only [Broker.deleteTopic, h]
  rw [delete_fold_acts]
  rfl

/-! ### The queue-emptiness invariant -/

/-- Every subscriber queue in every topic of the registry is empty. -/
def AllQueuesEmpty {π : Type} (b : Broker π) : Prop :=
  ∀ p ∈ b.topics, ∀ q ∈ p.2.subscribers, q.2.queue.items = []

/-- Every subscriber queue in every topic respects its capacity bound. -/
def AllQueuesWithinCapacity {π : Type} (b : Broker π) : Prop :=
  ∀ p ∈ b.topics, ∀ q ∈ p.2.subscribers,
    q.2.queue.items.length ≤ q.2.queue.capacity

theorem AllQueuesEmpty.within {π : Type} {b : Broker π}
    (h : AllQueuesEmpty b) : AllQueuesWithinCapacity b := by
  intro p hp q hq
  rw [h p hp q hq]
  exact Nat.zero_le _

theorem aqe_createTopic {π : Type} {b : Broker π} (h : AllQueuesEmpty b)
    (name : String) : AllQueuesEmpty (b.createTopic name).1 := by
  by_cases hc : (mapGet b.topics name).isSome
  · simpa [Broker.createTopic, hc] using h
  · simp only [Broker.createTopic, hc, if_false]
    intro p hp q hq
    rcases mem_mapSet hp with rfl | hp
    · simp at hq
    · exact h p hp q hq

theorem aqe_deleteTopic {π : Type} {b : Broker π} (h : AllQueuesEmpty b)
    (name ts : String) : AllQueuesEmpty (b.deleteTopic name ts).1 := by
  cases hm : mapGet b.topics name with
  | none => simpa [Broker.deleteTopic, hm] using h
  | some topic =>
      rw [deleteTopic_present b name ts topic hm]
      intro p hp q hq
      exact h p (mem_mapDelete hp) q hq

theorem aqe_subscribe {π : Type} {b : Broker π} (h : AllQueuesEmpty b)
    (sid cid t : String) (lastN : Option Nat) (rid : Option String)
    (ts : String) : AllQueuesEmpty (b.subscribe sid cid t lastN rid ts).1 := by
  cases hm : mapGet b.topics t with
  | none => simpa [Broker.subscribe, hm] using h
  | some topic =>
      rw [subscribe_present b sid cid t lastN rid ts topic hm]
      intro p hp q hq
      rcases mem_mapSet hp with rfl | hp
      · rcases mem_mapSet hq with rfl | hq
        · rfl
        · exact h _ (mapGet_mem hm) q hq
      · exact h p hp q hq

theorem aqe_unsubscribe {π : Type} {b : Broker π} (h : AllQueuesEmpty b)
    (sid t cid : String) (rid : Option String) (ts : String) :
    AllQueuesEmpty (b.unsubscribe sid t cid rid ts).1 := by
  cases hm : mapGet b.topics t with
  | none => simpa [Broker.unsubscribe, hm] using h
  | some topic =>
      rw [unsubscribe_present b sid t cid rid ts topic hm]
      intro p hp q hq
      rcases mem_mapSet hp with rfl | hp
      · exact h _ (mapGet_mem hm) q (mem_mapDelete hq)
      · exact h p hp q hq

theorem aqe_publish {π : Type} {b : Broker π} (h : AllQueuesEmpty b)
    (t : String) (msg : PublishPayload π) (rid : Option String)
    (ts : String) : AllQueuesEmpty (b.publish t msg rid ts).1 := by
  cases hm : mapGet b.topics t with
  | none => simpa [Broker.publish, hm] using h
  | some topic =>
      rw [publish_fanout b t msg rid ts topic hm (h _ (mapGet_mem hm))]
      intro p hp q hq
      rcases mem_mapSet hp with rfl | hp
      · exact h _ (mapGet_mem hm) q hq
      · exact h p hp q hq

/-! ### Ring-buffer correctness -/

/-- The last `k` elements of a list (all of it when `k ≥ length`). -/
def tailN {α : Type} (k : Nat) (xs : List α) : List α :=
  xs.drop (xs.length - k)

/-- The ring `r` currently holds exactly the payloads `xs`, oldest first:
`count` matches, `count` is within capacity, `start` is reduced modulo
the capacity, and slot `(start + i) % capacity` holds `xs[i]`. -/
def RingModels {α : Type} (r : RingBuffer α) (xs : List α) : Prop :=
  r.count = xs.length ∧ r.count ≤ r.capacity ∧
    r.start % r.capacity = r.start ∧
    ∀ i, i < xs.length → r.buffer ((r.start + i) % r.capacity) = xs[i]?

theorem ringModels_empty {α : Type} (cap : Nat) :
    RingModels (RingBuffer.empty (α := α) cap) [] := by
  refine ⟨rfl, Nat.zero_le _, Nat.zero_mod _, ?_⟩
  intro i hi
  simp at hi

theorem ring_mod_inj {c s i j : Nat} (hi : i < c) (hj : j < c)
    (h : (s + i) % c = (s + j) % c) : i = j := by
  have h2 : i ≡ j [MOD c] := Nat.ModEq.add_left_cancel' s h
  have h3 : i % c = j % c := h2
  rwa [Nat.mod_eq_of_lt hi, Nat.mod_eq_of_lt hj] at h3

theorem RingBuffer.append_of_capacity_zero {α : Type} (r : RingBuffer α)
    (v : α) (h : r.capacity = 0) : r.append v = r := by
  unfold RingBuffer.append
  rw [if_pos h]

theorem RingBuffer.capacity_append {α : Type} (r : RingBuffer α) (v : α) :
    (r.append v).capacity = r.capacity := by
  unfold RingBuffer.append
  split
  · rfl
  · dsimp only
    split <;> rfl

theorem ringModels_append {α : Type} {r : RingBuffer α} {xs : List α}
    (h : RingModels r xs) (v : α) :
    RingModels (r.append v)
      (if r.capacity = 0 then xs
       else if xs.length < r.capacity then xs ++ [v]
       else xs.tail ++ [v]) := by
  obtain ⟨hc, hle, hs, hbuf⟩ := h
  by_cases h0 : r.capacity = 0
  · rw [if_pos h0, RingBuffer.append_of_capacity_zero r v h0]
    exact ⟨hc, hle, hs, hbuf⟩
  · rw [if_neg h0]
    have hcap : 0 < r.capacity := Nat.pos_of_ne_zero h0
    by_cases hlt : xs.length < r.capacity
    · rw [if_pos hlt]
      have happ : r.append v =
          { r with
            buffer := fun i =>
              if i = (r.start + r.count) % r.capacity then some v
              else r.buffer i,
            count := r.count + 1 } := by
        unfold RingBuffer.append
        rw [if_neg h0]
        dsimp only
        rw [if_pos (hc ▸ hlt)]
      rw [happ]
      refine ⟨?_, ?_, hs, ?_⟩
      · dsimp only
        rw [List.length_append, List.length_singleton, hc]
      · dsimp only
        omega
      intro i hi
      dsimp only
      rw [List.length_append, List.length_singleton] at hi
      rcases Nat.lt_or_ge i xs.length with hilt | hige
      · have hne : (r.start + i) % r.capacity ≠
            (r.start + r.count) % r.capacity := by
          intro he
          have : i = r.count :=
            ring_mod_inj (by omega) (hc ▸ hlt) he
          omega
        rw [if_neg hne, hbuf i hilt,
          List.getElem?_append, if_pos hilt]
      · have hieq : i = xs.length := by omega
        subst hieq
        have hcond : (r.start + xs.length) % r.capacity =
            (r.start + r.count) % r.capacity := by rw [hc]
        rw [if_pos hcond, List.getElem?_concat_length]
    · rw [if_neg hlt]
      have hfull : r.count = r.capacity := by omega
      have hxlen : xs.length = r.capacity := by omega
      have hstart : (r.start + r.count) % r.capacity = r.start := by
        rw [hfull, Nat.add_mod_right, hs]
      have happ : r.append v =
          { r with
            buffer := fun i =>
              if i = (r.start + r.count) % r.capacity then some v
              else r.buffer i,
            start := (r.start + 1) % r.capacity } := by
        unfold RingBuffer.append
        rw [if_neg h0]
        dsimp only
        rw [if_neg (by omega)]
      rw [happ]
      refine ⟨?_, ?_, ?_, ?_⟩
      · dsimp only
        rw [List.length_append, List.length_singleton, List.length_tail]
        omega
      · dsimp only
        omega
      · dsimp only
        exact Nat.mod_eq_of_lt (Nat.mod_lt _ hcap)
      intro i hi
      dsimp only
      rw [List.length_append, List.length_singleton, List.length_tail] at hi
      have hidx : ((r.start + 1) % r.capacity + i) % r.capacity =
          (r.start + 1 + i) % r.capacity := Nat.mod_add_mod _ _ _
      rcases Nat.lt_or_ge i (r.capacity - 1) with hilt | hige
      · have hne : (r.start + 1 + i) % r.capacity ≠
            (r.start + r.count) % r.capacity := by
          rw [hstart]
          intro he
          rw [Nat.add_assoc] at he
          have he' : (r.start + (1 + i)) % r.capacity =
              (r.start + 0) % r.capacity := by
            rw [Nat.add_zero, hs]
            exact he
          have h10 : 1 + i = 0 :=
            ring_mod_inj (by omega) (by omega) he'
          omega
        rw [hidx, if_neg hne]
        have h1i : r.start + 1 + i = r.start + (i + 1) := by omega
        rw [h1i, hbuf (i + 1) (by omega)]
        rw [List.getElem?_append,
          if_pos (by rw [List.length_tail]; omega)]
        rcases xs with _ | ⟨x, xs'⟩
        · rw [List.length_nil] at hxlen
          omega
        · rw [List.tail_cons, List.getElem?_cons_succ]
      · have hieq : i = r.capacity - 1 := by omega
        subst hieq
        have hci : r.start + 1 + (r.capacity - 1) = r.start + r.capacity := by
          omega
        have hcond : (r.start + r.capacity) % r.capacity =
            (r.start + r.count) % r.capacity := by rw [hfull]
        rw [hidx, hci, if_pos hcond]
        have htl : (xs.tail).length = r.capacity - 1 := by
          rw [List.length_tail]
          omega
        rw [← htl, List.getElem?_concat_length]

theorem filterMap_range'_eq_drop {α : Type} (xs : List α) (f : Nat → Option α)
    (hf : ∀ i, i < xs.length → f i = xs[i]?) :
    ∀ (t j : Nat), j + t = xs.length →
      (List.range' j t).filterMap f = xs.drop j := by
  intro t
  induction t with
  | zero =>
      intro j hj
      rw [List.range'_zero, List.filterMap_nil,
        List.drop_eq_nil_of_le (by omega)]
  | succ t ih =>
      intro j hj
      have hjlt : j < xs.length := by omega
      rw [List.range'_succ, List.filterMap_cons, hf j hjlt,
        List.getElem?_eq_getElem hjlt]
      rw [ih (j + 1) (by omega)]
      exact (List.drop_eq_getElem_cons hjlt).symm

theorem ringModels_last {α : Type} {r : RingBuffer α} {xs : List α}
    (h : RingModels r xs) (n : Nat) :
    r.last n = tailN (min n xs.length) xs := by
  obtain ⟨hc, _, _, hbuf⟩ := h
  unfold RingBuffer.last tailN
  rw [hc]
  exact filterMap_range'_eq_drop xs _ hbuf _ _ (by omega)

theorem tailN_concat {α : Type} (R : Nat) (ws : List α) (v : α) :
    tailN R (ws ++ [v]) =
      (if R = 0 then tailN R ws
       else if (tailN R ws).length < R then tailN R ws ++ [v]
       else (tailN R ws).tail ++ [v]) := by
  unfold tailN
  by_cases h0 : R = 0
  · subst h0
    rw [if_pos rfl, Nat.sub_zero, Nat.sub_zero, List.drop_length,
      List.drop_length]
  · rw [if_neg h0]
    simp only [List.length_append, List.length_singleton, List.length_drop]
    by_cases hlt : ws.length < R
    · rw [if_pos (by omega)]
      have h1 : ws.length - R = 0 := by omega
      have h2 : ws.length + 1 - R = 0 := by omega
      rw [h1, h2, List.drop_zero, List.drop_zero]
    · rw [if_neg (by omega)]
      rw [List.tail_drop, List.drop_append_eq_append_drop]
      have h1 : ws.length + 1 - R - ws.length = 0 := by omega
      have h2 : ws.length + 1 - R = ws.length - R + 1 := by omega
      rw [h1, List.drop_zero, h2]

theorem ring_fold_models {α : Type} (R : Nat) (ws : List α) :
    RingModels (ws.foldl RingBuffer.append (RingBuffer.empty R)) (tailN R ws) ∧
    (ws.foldl RingBuffer.append (RingBuffer.empty R)).capacity = R := by
  induction ws using List.reverseRecOn with
  | nil =>
      refine ⟨?_, rfl⟩
      have h : tailN R ([] : List α) = [] := by
        unfold tailN
        exact List.drop_nil
      rw [List.foldl_nil, h]
      exact ringModels_empty R
  | append_singleton l a ih =>
      obtain ⟨hm, hcap⟩ := ih
      rw [List.foldl_append, List.foldl_cons, List.foldl_nil]
      refine ⟨?_, by rw [RingBuffer.capacity_append, hcap]⟩
      have h := ringModels_append hm a
      rw [hcap] at h
      rw [tailN_concat R l a]
      exact h

theorem aqe_handleSocketDisconnect {π : Type} {b : Broker π}
    (h : AllQueuesEmpty b) (sid : String) :
    AllQueuesEmpty (b.handleSocketDisconnect sid) := by
  intro p hp q hq
  simp only [Broker.handleSocketDisconnect] at hp
  rcases List.mem_map.mp hp with ⟨p0, hp0, hf⟩
  by_cases hc : (mapGet p0.2.subscribers sid).isSome
  · rw [if_pos hc] at hf
    subst hf
    exact h p0 hp0 q (mem_mapDelete hq)
  · rw [if_neg hc] at hf
    subst hf
    exact h p0 hp0 q hq

/-! ### Projections of emitted envelopes -/

/-- The `ts` field of an outbound envelope. -/
def msgTs {π : Type} : ServerMessage π → Option String
  | ServerMessage.ack _ _ t => t
  | ServerMessage.event _ _ _ t => t
  | ServerMessage.error _ _ _ t => t
  | ServerMessage.pong _ t => t
  | ServerMessage.info _ _ _ t => t

/-- The `request_id` field of an outbound envelope. -/
def msgReqId {π : Type} : ServerMessage π → Option String
  | ServerMessage.ack _ r _ => r
  | ServerMessage.event _ _ r _ => r
  | ServerMessage.error _ _ r _ => r
  | ServerMessage.pong r _ => r
  | ServerMessage.info _ _ r _ => r

/-- Whether an outbound envelope is an `event`. -/
def isEventMsg {π : Type} : ServerMessage π → Bool
  | ServerMessage.event _ _ _ _ => true
  | _ => false

/-- The payloads of `event` envelopes addressed to socket `sid` about
topic `t`, in emission order. -/
def eventsTo {π : Type} (sid t : String) (acts : List (Action π)) :
    List (PublishPayload π) :=
  acts.filterMap (fun a => match a with
    | Action.emit s (ServerMessage.event tp m _ _) =>
        if s = sid ∧ tp = t then some m else none
    | _ => none)

theorem eventsTo_append {π : Type} (sid t : String)
    (l1 l2 : List (Action π)) :
    eventsTo sid t (l1 ++ l2) = eventsTo sid t l1 ++ eventsTo sid t l2 := by
  unfold eventsTo
  exact List.filterMap_append _ _ _

theorem eventsTo_fanout {π : Type} (sid t : String) (msg : PublishPayload π)
    (ts : String) (L : List (String × Subscriber π)) :
    eventsTo sid t (L.map (fun q => Action.emit q.2.socketId
        (ServerMessage.event t msg none (some ts)))) =
      List.replicate (L.countP (fun q => q.2.socketId == sid)) msg := by
  induction L with
  | nil => rfl
  | cons p L ih =>
      by_cases h : p.2.socketId = sid
      · simpa [eventsTo, List.countP_cons, h, List.replicate_succ] using ih
      · simpa [eventsTo, List.countP_cons, h] using ih

theorem flush_acts_mem {π : Type} {sub : Subscriber π} {st : Stats}
    {ts : String} {s : String} {m : ServerMessage π}
    (h : Action.emit s m ∈ (flush sub st ts).2.2) :
    isEventMsg m = true ∧ msgReqId m = none ∧ msgTs m = some ts := by
  simp only [flush, List.mem_map] at h
  obtain ⟨ev, _, he⟩ := h
  injection he with h1 h2
  subst h2
  exact ⟨rfl, rfl, rfl⟩

theorem publish_fold_acts_mem {π : Type} (t : String)
    (msg : PublishPayload π) (ts : String) (L : List (String × Subscriber π)) :
    ∀ (acc : List (String × Subscriber π) × Stats × List (Action π))
      (s : String) (m : ServerMessage π),
      Action.emit s m ∈ (L.foldl (publishStep t msg ts) acc).2.2 →
      Action.emit s m ∈ acc.2.2 ∨
        (isEventMsg m = true ∧ msgReqId m = none ∧ msgTs m = some ts) := by
  induction L with
  | nil => exact fun acc s m h => Or.inl h
  | cons p L ih =>
      intro acc s m h
      rw [List.foldl_cons] at h
      rcases ih _ s m h with h' | h'
      · dsimp only [publishStep] at h'
        rcases List.mem_append.mp h' with h'' | h''
        · exact Or.inl h''
        · exact Or.inr (flush_acts_mem h'')
      · exact Or.inr h'

/-! ### Iterated publishes (the S6 backpressure scenario) -/

theorem publish_iter {π : Type} (t : String) (rid : Option String)
    (ts : String) (f : Nat → PublishPayload π) :
    ∀ (n : Nat) (b : Broker π) (topic : Topic π),
      mapGet b.topics t = some topic →
      (∀ q ∈ topic.subscribers, q.2.queue.items = []) →
      ∃ topic' : Topic π,
        mapGet ((List.range n).foldl
          (fun acc i => (acc.publish t (f i) rid ts).1) b).topics t =
            some topic' ∧
        topic'.subscribers = topic.subscribers ∧
        topic'.stats = ⟨topic.stats.messages + n, topic.stats.subscribers,
          topic.stats.delivered + n * topic.subscribers.length,
          topic.stats.dropped +
            n * topic.subscribers.countP
              (fun q => q.2.queue.capacity == 0)⟩ := by
  intro n
  induction n with
  | zero =>
      intro b topic h hq
      refine ⟨topic, by simpa using h, rfl, ?_⟩
      simp
  | succ n ih =>
      intro b topic h hq
      obtain ⟨topic', h1, h2, h3⟩ := ih b topic h hq
      rw [List.range_succ, List.foldl_append, List.foldl_cons, List.foldl_nil]
      have hq' : ∀ q ∈ topic'.subscribers, q.2.queue.items = [] := by
        rw [h2]; exact hq
      rw [publish_fanout _ t (f n) rid ts topic' h1 hq']
      refine ⟨_, mapGet_mapSet_self _ _ _, h2, ?_⟩
      simp only [h3, h2, Stats.mk.injEq]
      refine ⟨by omega, by trivial, by rw [Nat.succ_mul]; omega,
        by rw [Nat.succ_mul]; omega⟩

/-- S6 initial state: a fresh broker with the source's default options,
after `createTopic "bp"` and one `subscribe` on it. -/
def scenarioStart : Broker Nat :=
  (((⟨[], ⟨100, 512⟩⟩ : Broker Nat).createTopic "bp").1.subscribe
    "S" "bp1" "bp" none none "t0").1

/-- The single S6 subscriber record. -/
def scenarioSub : Subscriber Nat := ⟨"S", "bp1", ⟨512, []⟩⟩

/-- S6 final state: 1200 publishes to `bp` in a row. -/
def scenarioBroker : Broker Nat :=
  (List.range 1200).foldl
    (fun acc i => (acc.publish "bp" ⟨toString i, i⟩ none "t1").1)
    scenarioStart

/-- The counters `GET /stats` reports for `bp` after the S6 run. -/
def scenarioStats : Stats :=
  match mapGet scenarioBroker.topics "bp" with
  | some tp => tp.stats
  | none => ⟨0, 0, 0, 0⟩

/-- The subscriber's outbound-queue length after the S6 run. -/
def scenarioQueued : Nat :=
  match mapGet scenarioBroker.topics "bp" with
  | some tp =>
      match mapGet tp.subscribers "S" with
      | some s => s.queue.items.length
      | none => 0
  | none => 0

theorem scenarioStart_eq :
    scenarioStart = ⟨[("bp", ⟨"bp", [("S", scenarioSub)],
      RingBuffer.empty 100, ⟨0, 1, 0, 0⟩⟩)], ⟨100, 512⟩⟩ := by
  rfl

theorem scenario_eval :
    scenarioStats = ⟨1200, 1, 1200, 0⟩ ∧ scenarioQueued = 0 := by
  have h0 : mapGet scenarioStart.topics "bp" =
      some ⟨"bp", [("S", scenarioSub)], RingBuffer.empty 100,
        ⟨0, 1, 0, 0⟩⟩ := by
    rw [scenarioStart_eq]
    rfl
  have hq : ∀ q ∈ ([("S", scenarioSub)] : List (String × Subscriber Nat)),
      q.2.queue.items = [] := by
    intro q hq
    rcases List.mem_singleton.mp hq with rfl
    rfl
  obtain ⟨topic', h1, h2, h3⟩ := publish_iter "bp" none "t1"
    (fun i => ⟨toString i, i⟩) 1200 scenarioStart _ h0 hq
  have h1' : mapGet scenarioBroker.topics "bp" = some topic' := h1
  constructor
  · unfold scenarioStats
    rw [h1']
    dsimp only
    rw [h3]
    rfl
  · unfold scenarioQueued
    rw [h1']
    dsimp only
    rw [h2]
    rfl

/-! ### A concrete fixture broker -/

/-- A concrete subscriber already present in the fixture topic. -/
def oldSub : Subscriber Nat := ⟨"s1", "old", ⟨512, []⟩⟩

/-- A concrete topic `"t"` with `oldSub` subscribed. -/
def topicC : Topic Nat := ⟨"t", [("s1", oldSub)], RingBuffer.empty 100,
  ⟨0, 1, 0, 0⟩⟩

/-- A concrete broker whose registry holds exactly `topicC`. -/
def bC : Broker Nat := ⟨[("t", topicC)], ⟨100, 512⟩⟩

/-- Recognizes the `topic_deleted` info notice in an action trace. -/
def isTopicDeletedNotice {π : Type} : Action π → Bool
  | Action.emit _ (ServerMessage.info _ m _ _) => m == "topic_deleted"
  | _ => false

/-- Recognizes the registry-removal step for topic `t` in a trace. -/
def isRemoveOf {π : Type} (t : String) : Action π → Bool
  | Action.removeTopic n => n == t
  | _ => false

/-- The fixture broker has every queue empty. -/
theorem bC_queues_empty : AllQueuesEmpty bC := by
  intro p hp q hq
  rcases List.mem_singleton.mp hp with rfl
  rcases List.mem_singleton.mp hq with rfl
  rfl

/-! ### Claims -/

/-- C1 (counterexample): on the concrete broker `bC` holding topic `"t"`
with one subscriber, the `deleteTopic` trace emits the `topic_deleted`
notice at index 0 and removes the topic from the registry only at index
2 — so the topic is still in the registry at the moment the first
`topic_deleted` notice is emitted, contradicting the claimed order. -/
theorem claim_C1_counterexample :
    ∃ j i : Nat,
      (bC.deleteTopic "t" "T").2.1.findIdx? isTopicDeletedNotice = some j ∧
      (bC.deleteTopic "t" "T").2.1.findIdx? (isRemoveOf "t") = some i ∧
      j < i :=
  ⟨0, 2, by decide, by decide, by decide⟩

/-- C1 (amended): for every topic `t` present in a registry with
distinct topic keys, `deleteTopic(t)` succeeds; it first emits the
`topic_deleted` info envelope on each captured subscriber's connection
and closes that connection, in table order, and only after all notices
removes `t` from the registry (the removal is the trace's final step);
once `deleteTopic` returns, `t` is absent from the registry. -/
theorem claim_C1_deleteTopic {π : Type} (b : Broker π) (t ts : String)
    (topic : Topic π) (h : mapGet b.topics t = some topic)
    (hnd : (b.topics.map Prod.fst).Nodup) :
    b.deleteTopic t ts =
      (⟨mapDelete b.topics t, b.opts⟩,
       (topic.subscribers.map (fun q =>
          [Action.emit q.2.socketId
             (ServerMessage.info (some t) "topic_deleted" none (some ts)),
           Action.disconnect q.2.socketId])).flatten ++
         [Action.removeTopic t],
       true) ∧
    mapGet (b.deleteTopic t ts).1.topics t = none := by
  have hd := deleteTopic_present b t ts topic h
  refine ⟨hd, ?_⟩
  rw [hd]
  exact mapGet_mapDelete_self hnd

/-- C1 witness: the amended statement evaluated on the fixture broker. -/
theorem claim_C1_deleteTopic_witness :
    mapGet bC.topics "t" = some topicC ∧
    (bC.topics.map Prod.fst).Nodup ∧
    (bC.deleteTopic "t" "T" =
      (⟨mapDelete bC.topics "t", bC.opts⟩,
       (topicC.subscribers.map (fun q =>
          [Action.emit q.2.socketId
             (ServerMessage.info (some "t") "topic_deleted" none (some "T")),
           Action.disconnect q.2.socketId])).flatten ++
         [Action.removeTopic "t"],
       true) ∧
     mapGet (bC.deleteTopic "t" "T").1.topics "t" = none) :=
  ⟨rfl, by decide,
   claim_C1_deleteTopic bC "t" "T" topicC rfl (by decide)⟩

/-- C2 (counterexample): in the S6 scenario (queue capacity 512, one
subscriber subscribed before the first publish, 1200 accepted
publishes) the stats do report `messages = 1200`, but `dropped > 0`
fails: each publish drains the queue synchronously, so nothing is ever
dropped. -/
theorem claim_C2_counterexample :
    scenarioStats.messages = 1200 ∧ ¬ 0 < scenarioStats.dropped := by
  have h := scenario_eval
  rw [h.1]
  exact ⟨rfl, by decide⟩

/-- C2 (amended): in the S6 scenario the topic's stats afterwards
satisfy `messages = 1200`, `dropped = 0` (not `dropped > 0`),
`delivered = 1200`, `still_queued = 0`, and
`delivered + still_queued + dropped = 1200`. -/
theorem claim_C2_backpressure :
    scenarioStats.messages = 1200 ∧ scenarioStats.dropped = 0 ∧
    scenarioStats.delivered = 1200 ∧ scenarioQueued = 0 ∧
    scenarioStats.delivered + scenarioQueued + scenarioStats.dropped =
      1200 := by
  obtain ⟨h1, h2⟩ := scenario_eval
  rw [h1, h2]
  exact ⟨rfl, rfl, rfl, rfl, rfl⟩

/-- C3: at the end of every broker operation every subscriber's
outbound queue is empty.  Each enqueue is immediately followed by a
`flush` that drains up to 100 items, and at most one item is enqueued
between consecutive drains, so each of the six broker operations maps
a state in which all queues are empty (as they are from the start) to
a state in which all queues are again empty. -/
theorem claim_C3_queues_empty {π : Type} (b : Broker π)
    (h : AllQueuesEmpty b) :
    (∀ name, AllQueuesEmpty (b.createTopic name).1) ∧
    (∀ name ts, AllQueuesEmpty (b.deleteTopic name ts).1) ∧
    (∀ sid cid t lastN rid ts,
      AllQueuesEmpty (b.subscribe sid cid t lastN rid ts).1) ∧
    (∀ sid t cid rid ts,
      AllQueuesEmpty (b.unsubscribe sid t cid rid ts).1) ∧
    (∀ t msg rid ts, AllQueuesEmpty (b.publish t msg rid ts).1) ∧
    (∀ sid, AllQueuesEmpty (b.handleSocketDisconnect sid)) :=
  ⟨fun name => aqe_createTopic h name,
   fun name ts => aqe_deleteTopic h name ts,
   fun sid cid t lastN rid ts => aqe_subscribe h sid cid t lastN rid ts,
   fun sid t cid rid ts => aqe_unsubscribe h sid t cid rid ts,
   fun t msg rid ts => aqe_publish h t msg rid ts,
   fun sid => aqe_handleSocketDisconnect h sid⟩

/-- C3 witness: the invariant evaluated on the fixture broker and a
publish on it. -/
theorem claim_C3_queues_empty_witness :
    AllQueuesEmpty bC ∧
    AllQueuesEmpty (bC.publish "t" ⟨"m", (5 : Nat)⟩ none "T").1 :=
  ⟨bC_queues_empty,
   (claim_C3_queues_empty bC bC_queues_empty).2.2.2.2.1 "t" ⟨"m", 5⟩
     none "T"⟩

/-- C4: a push onto a bounded queue whose length equals its capacity
discards the head and reports `dropped = 1` while appending the new
item; a push below capacity appends with `dropped = 0`; and after
every broker operation every subscriber queue's length lies within
`[0, Q]` (starting from a state where all queues are empty, as they
always are at operation boundaries). -/
theorem claim_C4_bounded_queue :
    (∀ (α : Type) (q : BoundedQueue α) (it : α),
      q.items.length = q.capacity →
      q.pushDropOldest it = ({ q with items := q.items.tail ++ [it] }, 1)) ∧
    (∀ (α : Type) (q : BoundedQueue α) (it : α),
      q.items.length < q.capacity →
      q.pushDropOldest it = ({ q with items := q.items ++ [it] }, 0)) ∧
    (∀ (π : Type) (b : Broker π), AllQueuesEmpty b →
      (∀ name, AllQueuesWithinCapacity (b.createTopic name).1) ∧
      (∀ name ts, AllQueuesWithinCapacity (b.deleteTopic name ts).1) ∧
      (∀ sid cid t lastN rid ts,
        AllQueuesWithinCapacity (b.subscribe sid cid t lastN rid ts).1) ∧
      (∀ sid t cid rid ts,
        AllQueuesWithinCapacity (b.unsubscribe sid t cid rid ts).1) ∧
      (∀ t msg rid ts,
        AllQueuesWithinCapacity (b.publish t msg rid ts).1) ∧
      (∀ sid,
        AllQueuesWithinCapacity (b.handleSocketDisconnect sid))) := by
  refine ⟨?_, ?_, ?_⟩
  · intro α q it h
    unfold BoundedQueue.pushDropOldest
    rw [if_pos (by omega)]
  · intro α q it h
    unfold BoundedQueue.pushDropOldest
    rw [if_neg (by omega)]
  · intro π b h
    exact ⟨fun name => (aqe_createTopic h name).within,
      fun name ts => (aqe_deleteTopic h name ts).within,
      fun sid cid t lastN rid ts =>
        (aqe_subscribe h sid cid t lastN rid ts).within,
      fun sid t cid rid ts => (aqe_unsubscribe h sid t cid rid ts).within,
      fun t msg rid ts => (aqe_publish h t msg rid ts).within,
      fun sid => (aqe_handleSocketDisconnect h sid).within⟩

/-- C4 witness: a full queue of capacity 2 evicts its head on push, and
the capacity bound holds after a disconnect on the fixture broker. -/
theorem claim_C4_bounded_queue_witness :
    ((⟨2, [10, 20]⟩ : BoundedQueue Nat).items.length =
        (⟨2, [10, 20]⟩ : BoundedQueue Nat).capacity ∧
      (⟨2, [10, 20]⟩ : BoundedQueue Nat).pushDropOldest 30 =
        (⟨2, [20, 30]⟩, 1)) ∧
    (AllQueuesEmpty bC ∧
      AllQueuesWithinCapacity (bC.handleSocketDisconnect "s1")) :=
  ⟨⟨by decide, claim_C4_bounded_queue.1 Nat ⟨2, [10, 20]⟩ 30 (by decide)⟩,
   bC_queues_empty,
   (claim_C4_bounded_queue.2.2 Nat bC bC_queues_empty).2.2.2.2.2 "s1"⟩

/-- C5: the replay ring built by appending `ws` to a fresh ring of
capacity `R` retains exactly the most recent `R` payloads in insertion
order (`tailN R ws`); `last n` returns the most recent
`min(n, size)` of them, oldest first, without mutating the ring (all
ring operations are pure functions of the ring value); `last n` with
`n ≥ size` equals `last size`; with `R = 0`, `append` is a no-op and
`last` returns the empty list. -/
theorem claim_C5_ring_buffer :
    (∀ (α : Type) (r : RingBuffer α) (v : α), r.capacity = 0 →
      r.append v = r) ∧
    (∀ (α : Type) (R : Nat) (ws : List α) (n : Nat),
      (ws.foldl RingBuffer.append (RingBuffer.empty R)).last n =
        tailN (min n (tailN R ws).length) (tailN R ws)) ∧
    (∀ (α : Type) (R : Nat) (ws : List α) (n : Nat),
      (tailN R ws).length ≤ n →
      (ws.foldl RingBuffer.append (RingBuffer.empty R)).last n =
        (ws.foldl RingBuffer.append (RingBuffer.empty R)).last
          ((tailN R ws).length)) ∧
    (∀ (α : Type) (ws : List α) (n : Nat),
      (ws.foldl RingBuffer.append (RingBuffer.empty 0)).last n = []) := by
  have hmain : ∀ (α : Type) (R : Nat) (ws : List α) (n : Nat),
      (ws.foldl RingBuffer.append (RingBuffer.empty R)).last n =
        tailN (min n (tailN R ws).length) (tailN R ws) :=
    fun α R ws n => ringModels_last (ring_fold_models R ws).1 n
  have hzero : ∀ (α : Type) (ws : List α), tailN 0 ws = [] := by
    intro α ws
    unfold tailN
    rw [Nat.sub_zero, List.drop_length]
  refine ⟨fun α r v h => RingBuffer.append_of_capacity_zero r v h,
    hmain, ?_, ?_⟩
  · intro α R ws n hn
    rw [hmain, hmain]
    have h1 : min n (tailN R ws).length = (tailN R ws).length := by omega
    have h2 : min (tailN R ws).length (tailN R ws).length =
        (tailN R ws).length := by omega
    rw [h1, h2]
  · intro α ws n
    rw [hmain, hzero]
    unfold tailN
    exact List.drop_nil

/-- C5 witness: capacity-0 append is a no-op, and on the ring of
capacity 2 filled with `[1, 2, 3]`, `last 5` equals `last 2`. -/
theorem claim_C5_ring_buffer_witness :
    ((RingBuffer.empty 0 : RingBuffer Nat).capacity = 0 ∧
      (RingBuffer.empty 0 : RingBuffer Nat).append 7 =
        RingBuffer.empty 0) ∧
    (([1, 2, 3] : List Nat).foldl RingBuffer.append
        (RingBuffer.empty 2)).last 5 =
      (([1, 2, 3] : List Nat).foldl RingBuffer.append
        (RingBuffer.empty 2)).last 2 :=
  ⟨⟨rfl, claim_C5_ring_buffer.1 Nat (RingBuffer.empty 0) 7 rfl⟩,
   claim_C5_ring_buffer.2.2.1 Nat 2 [1, 2, 3] 5 (by decide)⟩

/-- C6: for a topic with all queues empty (as at every operation
boundary) and a subscriber `sid` occurring exactly once in its table,
publishing `p1` and then `p2` emits the `event` envelopes for `sid`
about `t` in exactly the order `p1, p2`: per-subscriber delivery order
equals the order in which the broker processed the publishes. -/
theorem claim_C6_delivery_order {π : Type} (b : Broker π) (t sid : String)
    (topic : Topic π) (p1 p2 : PublishPayload π) (rid1 rid2 : Option String)
    (ts1 ts2 : String) (h : mapGet b.topics t = some topic)
    (hq : ∀ q ∈ topic.subscribers, q.2.queue.items = [])
    (hs : topic.subscribers.countP (fun q => q.2.socketId == sid) = 1) :
    eventsTo sid t ((b.publish t p1 rid1 ts1).2.1 ++
        ((b.publish t p1 rid1 ts1).1.publish t p2 rid2 ts2).2.1) =
      [p1, p2] := by
  have h1 := publish_fanout b t p1 rid1 ts1 topic h hq
  have hT1 : mapGet ((b.publish t p1 rid1 ts1).1).topics t =
      some ⟨topic.name, topic.subscribers, topic.ring.append p1,
        ⟨topic.stats.messages + 1, topic.stats.subscribers,
         topic.stats.delivered + topic.subscribers.length,
         topic.stats.dropped + topic.subscribers.countP
           (fun q => q.2.queue.capacity == 0)⟩⟩ := by
    rw [h1]
    exact mapGet_mapSet_self _ _ _
  have h2 := publish_fanout ((b.publish t p1 rid1 ts1).1) t p2 rid2 ts2 _
    hT1 hq
  have e1 : eventsTo sid t (b.publish t p1 rid1 ts1).2.1 = [p1] := by
    rw [h1]
    dsimp only
    rw [eventsTo_fanout, hs, List.replicate_one]
  have e2 : eventsTo sid t
      ((b.publish t p1 rid1 ts1).1.publish t p2 rid2 ts2).2.1 = [p2] := by
    rw [h2]
    dsimp only
    rw [eventsTo_fanout, hs, List.replicate_one]
  rw [eventsTo_append, e1, e2]
  rfl

/-- C6 witness: the ordering property evaluated on the fixture broker. -/
theorem claim_C6_delivery_order_witness :
    mapGet bC.topics "t" = some topicC ∧
    (∀ q ∈ topicC.subscribers, q.2.queue.items = []) ∧
    topicC.subscribers.countP (fun q => q.2.socketId == "s1") = 1 ∧
    eventsTo "s1" "t"
      ((bC.publish "t" ⟨"a", (1 : Nat)⟩ none "T1").2.1 ++
        ((bC.publish "t" ⟨"a", (1 : Nat)⟩ none "T1").1.publish "t"
          ⟨"b", (2 : Nat)⟩ none "T2").2.1) = [⟨"a", 1⟩, ⟨"b", 2⟩] := by
  have hq : ∀ q ∈ topicC.subscribers, q.2.queue.items = [] := by
    intro q hqm
    rcases List.mem_singleton.mp hqm with rfl
    rfl
  exact ⟨rfl, hq, by decide,
    claim_C6_delivery_order bC "t" "s1" topicC ⟨"a", 1⟩ ⟨"b", 2⟩ none none
      "T1" "T2" rfl hq (by decide)⟩

/-- C7 (counterexample): a publish carrying `request_id = "r1"` on the
fixture broker fans out an `event` envelope whose `request_id` is
`none` — outbound event envelopes do not echo the inbound request id,
contradicting the claim for event envelopes. -/
theorem claim_C7_counterexample :
    ∃ (s : String) (m : ServerMessage Nat),
      Action.emit s m ∈
        (handlePublish bC "p0" "t" ⟨"m0", (7 : Nat)⟩ (some "r1") "T").2 ∧
      isEventMsg m = true ∧ msgReqId m ≠ some "r1" :=
  ⟨"s1", ServerMessage.event "t" ⟨"m0", 7⟩ none (some "T"),
   by decide, by decide, by decide⟩

/-- C7 (amended): every envelope emitted by the session's subscribe,
unsubscribe, publish and ping handlers carries a `ts`; the direct
replies (`ack`, `error`, `pong`) echo the inbound `request_id`; but the
`event` envelopes fanned out to subscribers (for publishes and for
replay) carry no `request_id`.  The `topic_deleted` broadcast also
carries a `ts`. -/
theorem claim_C7_envelopes {π : Type} :
    (∀ (b : Broker π) (sid cid t : String) (lastN : Option Nat)
        (rid : Option String) (ts s : String) (m : ServerMessage π),
      Action.emit s m ∈ (b.subscribe sid cid t lastN rid ts).2 →
      msgTs m = some ts ∧ (isEventMsg m = true → msgReqId m = none) ∧
        (isEventMsg m = false → msgReqId m = rid)) ∧
    (∀ (b : Broker π) (sid t cid : String) (rid : Option String)
        (ts s : String) (m : ServerMessage π),
      Action.emit s m ∈ (b.unsubscribe sid t cid rid ts).2 →
      msgTs m = some ts ∧ (isEventMsg m = true → msgReqId m = none) ∧
        (isEventMsg m = false → msgReqId m = rid)) ∧
    (∀ (b : Broker π) (sid t : String) (msg : PublishPayload π)
        (rid : Option String) (now s : String) (m : ServerMessage π),
      Action.emit s m ∈ (handlePublish b sid t msg rid now).2 →
      msgTs m = some now ∧ (isEventMsg m = true → msgReqId m = none) ∧
        (isEventMsg m = false → msgReqId m = rid)) ∧
    (∀ (sid : String) (rid : Option String) (now s : String)
        (m : ServerMessage π),
      Action.emit s m ∈ handlePing (π := π) sid rid now →
      msgTs m = some now ∧ msgReqId m = rid) ∧
    (∀ (b : Broker π) (name ts s : String) (m : ServerMessage π),
      Action.emit s m ∈ (b.deleteTopic name ts).2.1 →
      msgTs m = some ts) := by
  refine ⟨?_, ?_, ?_, ?_, ?_⟩
  · intro b sid cid t lastN rid ts s m hmem
    cases hm : mapGet b.topics t with
    | none =>
        simp only [Broker.subscribe, hm, List.mem_singleton] at hmem
        injection hmem with h1 h2
        subst h2
        exact ⟨rfl, fun hh => by simp [isEventMsg] at hh, fun _ => rfl⟩
    | some topic =>
        rw [subscribe_present b sid cid t lastN rid ts topic hm] at hmem
        dsimp only at hmem
        rcases List.mem_cons.mp hmem with hmem | hmem
        · injection hmem with h1 h2
          subst h2
          exact ⟨rfl, fun hh => by simp [isEventMsg] at hh, fun _ => rfl⟩
        · rcases List.mem_map.mp hmem with ⟨x, _, he⟩
          injection he with h1 h2
          subst h2
          exact ⟨rfl, fun _ => rfl, fun hh => by simp [isEventMsg] at hh⟩
  · intro b sid t cid rid ts s m hmem
    cases hm : mapGet b.topics t with
    | none =>
        simp only [Broker.unsubscribe, hm, List.mem_singleton] at hmem
        injection hmem with h1 h2
        subst h2
        exact ⟨rfl, fun hh => by simp [isEventMsg] at hh, fun _ => rfl⟩
    | some topic =>
        rw [unsubscribe_present b sid t cid rid ts topic hm] at hmem
        dsimp only at hmem
        have hmem' := List.mem_singleton.mp hmem
        injection hmem' with h1 h2
        subst h2
        exact ⟨rfl, fun hh => by simp [isEventMsg] at hh, fun _ => rfl⟩
  · intro b sid t msg rid now s m hmem
    cases hm : mapGet b.topics t with
    | none =>
        simp only [handlePublish, Broker.publish, hm, Bool.false_eq_true,
          if_false, List.nil_append, List.mem_singleton] at hmem
        injection hmem with h1 h2
        subst h2
        exact ⟨rfl, fun hh => by simp [isEventMsg] at hh, fun _ => rfl⟩
    | some topic =>
        simp only [handlePublish, Broker.publish, hm, if_true] at hmem
        rcases List.mem_append.mp hmem with hmem | hmem
        · rcases publish_fold_acts_mem t msg now topic.subscribers _ s m
            hmem with h' | h'
          · simp at h'
          · exact ⟨h'.2.2, fun _ => h'.2.1,
              fun hh => by rw [h'.1] at hh; cases hh⟩
        · have hmem' := List.mem_singleton.mp hmem
          injection hmem' with h1 h2
          subst h2
          exact ⟨rfl, fun hh => by simp [isEventMsg] at hh, fun _ => rfl⟩
  · intro sid rid now s m hmem
    have hmem' := List.mem_singleton.mp hmem
    injection hmem' with h1 h2
    subst h2
    exact ⟨rfl, rfl⟩
  · intro b name ts s m hmem
    cases hm : mapGet b.topics name with
    | none =>
        simp only [Broker.deleteTopic, hm] at hmem
        exact absurd hmem (List.not_mem_nil _)
    | some topic =>
        rw [deleteTopic_present b name ts topic hm] at hmem
        dsimp only at hmem
        rcases List.mem_append.mp hmem with hmem | hmem
        · rcases List.mem_flatten.mp hmem with ⟨l, hl, hal⟩
          rcases List.mem_map.mp hl with ⟨q, _, rfl⟩
          rcases List.mem_cons.mp hal with hal | hal
          · injection hal with h1 h2
            subst h2
            rfl
          · have hal' := List.mem_singleton.mp hal
            simp at hal'
        · have hmem' := List.mem_singleton.mp hmem
          simp at hmem'

/-- C7 witness: the amended property applied to a concrete
unsubscribe `ack` reply on the fixture broker. -/
theorem claim_C7_envelopes_witness :
    (Action.emit "s1"
        (ServerMessage.ack (π := Nat) (some "t") (some "u1") (some "T")) ∈
      (bC.unsubscribe "s1" "t" "c" (some "u1") "T").2) ∧
    (msgTs (ServerMessage.ack (π := Nat) (some "t") (some "u1")
        (some "T")) = some "T" ∧
      (isEventMsg (ServerMessage.ack (π := Nat) (some "t") (some "u1")
          (some "T")) = true →
        msgReqId (ServerMessage.ack (π := Nat) (some "t") (some "u1")
          (some "T")) = none) ∧
      (isEventMsg (ServerMessage.ack (π := Nat) (some "t") (some "u1")
          (some "T")) = false →
        msgReqId (ServerMessage.ack (π := Nat) (some "t") (some "u1")
          (some "T")) = some "u1")) :=
  ⟨by decide, claim_C7_envelopes.2.1 bC "s1" "t" "c" (some "u1") "T" "s1" _
    (by decide)⟩

/-- C8 (counterexample): on `bC` the connection `"s1"` is already
subscribed to `"t"`; after `subscribe("s1", …)` then
`unsubscribe("s1", …)` the subscriber table is empty, not restored to
its pre-subscribe contents — the round trip destroys the pre-existing
entry. -/
theorem claim_C8_counterexample :
    (mapGet (((bC.subscribe "s1" "new" "t" none none "T1").1.unsubscribe
        "s1" "t" "new" none "T2").1).topics "t").map
          (fun tp => tp.subscribers) ≠
      some topicC.subscribers := by decide

/-- C8 (amended): provided the connection is not already in the topic's
subscriber table, `subscribe` followed by `unsubscribe` leaves the
table exactly as it was before the `subscribe`. -/
theorem claim_C8_subscribe_unsubscribe {π : Type} (b : Broker π)
    (sid t : String) (topic : Topic π)
    (h : mapGet b.topics t = some topic)
    (habs : mapGet topic.subscribers sid = none)
    (cid : String) (lastN : Option Nat) (rid1 rid2 : Option String)
    (ts1 ts2 : String) (cid2 : String) :
    (mapGet (((b.subscribe sid cid t lastN rid1 ts1).1.unsubscribe
        sid t cid2 rid2 ts2).1).topics t).map (fun tp => tp.subscribers) =
      some topic.subscribers := by
  have habs' : ∀ p ∈ topic.subscribers, p.1 ≠ sid :=
    mapGet_eq_none_forall habs
  rw [subscribe_present b sid cid t lastN rid1 ts1 topic h]
  dsimp only
  rw [unsubscribe_present _ sid t cid2 rid2 ts2 _ (mapGet_mapSet_self _ _ _)]
  dsimp only
  rw [mapGet_mapSet_self]
  dsimp only [Option.map_some']
  rw [mapSet_of_absent _ habs', mapDelete_append_absent _ habs']

/-- C8 witness: the round trip on the fixture broker for a connection
not yet subscribed. -/
theorem claim_C8_subscribe_unsubscribe_witness :
    mapGet bC.topics "t" = some topicC ∧
    mapGet topicC.subscribers "s2" = none ∧
    (mapGet (((bC.subscribe "s2" "c2" "t" none none "T1").1.unsubscribe
        "s2" "t" "c2" none "T2").1).topics "t").map
          (fun tp => tp.subscribers) = some topicC.subscribers :=
  ⟨rfl, rfl, claim_C8_subscribe_unsubscribe bC "s2" "t" topicC rfl rfl
    "c2" none none none "T1" "T2" "c2"⟩

/-- C9: `publish` on a topic absent from the registry returns the
not-found indicator and leaves the broker state literally unchanged
(no counters, no ring, no queue is touched, nothing is emitted by the
broker); the session handler then emits exactly one `TOPIC_NOT_FOUND`
error envelope to the publisher, echoing the request id. -/
theorem claim_C9_publish_not_found {π : Type} (b : Broker π) (t : String)
    (p : PublishPayload π) (rid : Option String) (ts : String)
    (sid : String) (now : String) (h : mapGet b.topics t = none) :
    b.publish t p rid ts = (b, [], false) ∧
    handlePublish b sid t p rid now =
      (b, [Action.emit sid (ServerMessage.error ErrorCode.TOPIC_NOT_FOUND
        ("topic " ++ t ++ " not found") rid (some now))]) := by
  constructor
  · simp [Broker.publish, h]
  · simp [handlePublish, Broker.publish, h]

/-- C9 witness: publishing to `"missing"` on the fixture broker. -/
theorem claim_C9_publish_not_found_witness :
    mapGet bC.topics "missing" = none ∧
    (bC.publish "missing" ⟨"x", (0 : Nat)⟩ (some "ee") "T" =
        (bC, [], false) ∧
      handlePublish bC "p0" "missing" ⟨"x", (0 : Nat)⟩ (some "ee") "T" =
        (bC, [Action.emit "p0" (ServerMessage.error
          ErrorCode.TOPIC_NOT_FOUND ("topic " ++ "missing" ++ " not found")
          (some "ee") (some "T"))])) :=
  ⟨rfl, claim_C9_publish_not_found bC "missing" ⟨"x", 0⟩ (some "ee") "T"
    "p0" "T" rfl⟩

/-- C10: a further `subscribe` on an already-present connection replaces
the record with a freshly created one carrying the new client id and a
newly constructed empty queue; with no replay requested the topic's
`messages`, `delivered` and `dropped` counters are untouched and only
the `ack` is emitted, so events still queued for the connection are
discarded without being delivered or counted. -/
theorem claim_C10_resubscribe {π : Type} (b : Broker π) (sid cid' t : String)
    (rid : Option String) (ts : String) (topic : Topic π)
    (h : mapGet b.topics t = some topic) :
    b.subscribe sid cid' t none rid ts =
      (⟨mapSet b.topics t
          ⟨topic.name,
           mapSet topic.subscribers sid
             ⟨sid, cid', ⟨b.opts.subscriberQueueSize, []⟩⟩,
           topic.ring,
           ⟨topic.stats.messages,
            (mapSet topic.subscribers sid
              ⟨sid, cid', ⟨b.opts.subscriberQueueSize, []⟩⟩).length,
            topic.stats.delivered, topic.stats.dropped⟩⟩,
        b.opts⟩,
       [Action.emit sid (ServerMessage.ack (some t) rid (some ts))]) ∧
    mapGet (mapSet topic.subscribers sid
        ⟨sid, cid', ⟨b.opts.subscriberQueueSize, []⟩⟩) sid =
      some ⟨sid, cid', ⟨b.opts.subscriberQueueSize, []⟩⟩ := by
  refine ⟨?_, mapGet_mapSet_self _ _ _⟩
  rw [subscribe_present b sid cid' t none rid ts topic h]
  simp [subToSend]

/-- C10 witness: re-subscribing `"s1"` (already subscribed) on the
fixture broker. -/
theorem claim_C10_resubscribe_witness :
    mapGet bC.topics "t" = some topicC ∧
    (bC.subscribe "s1" "new" "t" none none "T1" =
        (⟨mapSet bC.topics "t"
            ⟨topicC.name,
             mapSet topicC.subscribers "s1" ⟨"s1", "new", ⟨512, []⟩⟩,
             topicC.ring,
             ⟨topicC.stats.messages,
              (mapSet topicC.subscribers "s1"
                ⟨"s1", "new", ⟨512, []⟩⟩).length,
              topicC.stats.delivered, topicC.stats.dropped⟩⟩,
          bC.opts⟩,
         [Action.emit "s1"
            (ServerMessage.ack (some "t") none (some "T1"))]) ∧
      mapGet (mapSet topicC.subscribers "s1" ⟨"s1", "new", ⟨512, []⟩⟩)
          "s1" = some ⟨"s1", "new", ⟨512, []⟩⟩) :=
  ⟨rfl, claim_C10_resubscribe bC "s1" "new" "t" none "T1" topicC rfl⟩

end PubSub
